import Mathlib

/-!
Shallow embedding of the GIS-Named-Erratics clustering pipeline
(src/arcgis/clustering-test.py, the DBSCAN variant, and
src/arcgis/clustering-test-2.py, the HDBSCAN variant), together with
theorems checking the natural-language specification against it.

Numeric values flowing through the pipeline (TF-IDF scores, coordinates)
are modelled as exact rationals.  The external numeric library functions
`np.log` and `np.sqrt` (floating point in the source) are parameters of
the embedded functions, and the external NLTK / sklearn dictionaries are
modelled as finite tables, marked `Modelled from the spec` below.
-/

/-! ### Kernel-reducible rational arithmetic

Core `Rat.add`, `Rat.mul` and `Rat.div` are `@[irreducible]`, which blocks
`decide` on concrete pipeline runs.  The embedding therefore uses the
following operations, built from `mkRat` (which reduces), and proved equal
to the standard ones so that theorem statements may be read with ordinary
rational arithmetic in mind. -/

def qAdd (a b : ℚ) : ℚ := mkRat (a.num * b.den + b.num * a.den) (a.den * b.den)

def qMul (a b : ℚ) : ℚ := mkRat (a.num * b.num) (a.den * b.den)

def qInv (b : ℚ) : ℚ :=
  if b.num < 0 then mkRat (-(b.den : Int)) (-b.num).toNat
  else mkRat (b.den : Int) b.num.toNat

def qDiv (a b : ℚ) : ℚ := qMul a (qInv b)

def qSum : List ℚ → ℚ
  | [] => 0
  | a :: l => qAdd a (qSum l)

theorem qAdd_eq (a b : ℚ) : qAdd a b = a + b := by
  have ha : ((a.den : ℚ)) ≠ 0 := Nat.cast_ne_zero.mpr a.den_ne_zero
  have hb : ((b.den : ℚ)) ≠ 0 := Nat.cast_ne_zero.mpr b.den_ne_zero
  unfold qAdd
  rw [Rat.mkRat_eq_div]
  push_cast
  conv_rhs => rw [← Rat.num_div_den a, ← Rat.num_div_den b]
  rw [div_add_div _ _ ha hb, mul_comm ((a.den : ℚ)) ((b.num : ℚ))]

theorem qMul_eq (a b : ℚ) : qMul a b = a * b := by
  have ha : ((a.den : ℚ)) ≠ 0 := Nat.cast_ne_zero.mpr a.den_ne_zero
  have hb : ((b.den : ℚ)) ≠ 0 := Nat.cast_ne_zero.mpr b.den_ne_zero
  unfold qMul
  rw [Rat.mkRat_eq_div]
  push_cast
  conv_rhs => rw [← Rat.num_div_den a, ← Rat.num_div_den b]
  rw [div_mul_div_comm]

theorem ratInvEq (q : ℚ) : q⁻¹ = (q.den : ℚ) / (q.num : ℚ) := by
  have h := Rat.inv_def q
  rw [Rat.divInt_eq_div] at h
  exact_mod_cast h

theorem qInv_eq (b : ℚ) : qInv b = b⁻¹ := by
  unfold qInv
  rcases lt_trichotomy b.num 0 with hn | hn | hn
  · rw [if_pos hn, Rat.mkRat_eq_div, ratInvEq]
    have h1 : (((-b.num).toNat : ℤ)) = -b.num := Int.toNat_of_nonneg (by omega)
    have h2 : (((-b.num).toNat : ℕ) : ℚ) = -((b.num : ℚ)) := by exact_mod_cast h1
    rw [h2]
    push_cast
    rw [neg_div_neg_eq]
  · rw [if_neg (by omega), ratInvEq]
    have hb0 : b.num.toNat = 0 := by omega
    rw [hb0, hn]
    simp [Rat.mkRat_eq_div]
  · rw [if_neg (by omega), Rat.mkRat_eq_div, ratInvEq]
    have h1 : ((b.num.toNat : ℤ)) = b.num := Int.toNat_of_nonneg (le_of_lt hn)
    have h2 : ((b.num.toNat : ℕ) : ℚ) = ((b.num : ℚ)) := by exact_mod_cast h1
    rw [h2]
    push_cast
    rfl

theorem qDiv_eq (a b : ℚ) : qDiv a b = a / b := by
  rw [qDiv, qMul_eq, qInv_eq, div_eq_mul_inv]

theorem qSum_eq (l : List ℚ) : qSum l = l.sum := by
  induction l with
  | nil => rfl
  | cons a l ih => rw [qSum, qAdd_eq, ih, List.sum_cons]

/-! ### Characters and strings

`isWordChar` models Python's regex class `\w` (ASCII range), `pyLower`
models `str.lower`, `stripNonWordChars` models
`re.sub(r'[^\w\s]', '', text)`, `splitTok Char.isWhitespace` models
`str.split()`, and `pyJoin` models `' '.join(...)`. -/

def isWordChar (c : Char) : Bool := c.isAlphanum || c = '_'

def pyLower (s : String) : String := String.mk (s.data.map Char.toLower)

def stripNonWordChars (s : String) : String :=
  String.mk (s.data.filter fun c => isWordChar c || c.isWhitespace)

def splitTokAux (sep : Char → Bool) : List Char → List Char → List String
  | [], acc => if acc.isEmpty then [] else [String.mk acc.reverse]
  | c :: cs, acc =>
    if sep c then
      if acc.isEmpty then splitTokAux sep cs []
      else String.mk acc.reverse :: splitTokAux sep cs []
    else splitTokAux sep cs (c :: acc)

def splitTok (sep : Char → Bool) (s : String) : List String := splitTokAux sep s.data []

def pySplit (s : String) : List String := splitTok Char.isWhitespace s

def pyJoinAux : List (List Char) → List Char
  | [] => []
  | [w] => w
  | w :: ws => w ++ ' ' :: pyJoinAux ws

def pyJoin (ws : List String) : String := String.mk (pyJoinAux (ws.map String.data))

/-- Lexicographic comparison of character lists by code point, modelling how
Python compares strings (and hence how `sorted` orders sklearn vocabulary). -/
def lexLeChars : List Char → List Char → Bool
  | [], _ => true
  | _ :: _, [] => false
  | a :: as, b :: bs =>
    if a.toNat < b.toNat then true
    else if b.toNat < a.toNat then false
    else lexLeChars as bs

abbrev strLe (a b : String) : Prop := lexLeChars a.data b.data = true

theorem lexLeChars_refl (l : List Char) : lexLeChars l l = true := by
  induction l with
  | nil => rfl
  | cons a l ih => simp [lexLeChars, ih]

theorem lexLeChars_total (as bs : List Char) :
    lexLeChars as bs = true ∨ lexLeChars bs as = true := by
  induction as generalizing bs with
  | nil => left; rfl
  | cons a as ih =>
    cases bs with
    | nil => right; rfl
    | cons b bs =>
      rcases Nat.lt_trichotomy a.toNat b.toNat with h | h | h
      · left; simp [lexLeChars, h]
      · rcases ih bs with h2 | h2
        · left; simp [lexLeChars, h, h2]
        · right; simp [lexLeChars, h.symm, h2]
      · right; simp [lexLeChars, h]

theorem uint32ToNatInj {a b : UInt32} (h : a.toNat = b.toNat) : a = b := by
  cases a with
  | mk abv =>
    cases b with
    | mk bbv =>
      congr 1
      exact BitVec.eq_of_toNat_eq h

theorem charToNatInj {a b : Char} (h : a.toNat = b.toNat) : a = b :=
  Char.ext (uint32ToNatInj h)

theorem lexLeChars_trans {as bs cs : List Char} (h1 : lexLeChars as bs = true)
    (h2 : lexLeChars bs cs = true) : lexLeChars as cs = true := by
  induction as generalizing bs cs with
  | nil => rfl
  | cons a as ih =>
    cases bs with
    | nil => simp [lexLeChars] at h1
    | cons b bs =>
      cases cs with
      | nil => simp [lexLeChars] at h2
      | cons c cs =>
        by_cases hab : a.toNat < b.toNat
        · by_cases hbc : b.toNat < c.toNat
          · have hac : a.toNat < c.toNat := Nat.lt_trans hab hbc
            simp [lexLeChars, hac]
          · have hcb : ¬ c.toNat < b.toNat := by
              intro hcb
              simp [lexLeChars, hbc, hcb] at h2
            have hac : a.toNat < c.toNat := by omega
            simp [lexLeChars, hac]
        · have hba : ¬ b.toNat < a.toNat := by
            intro hba
            simp [lexLeChars, hab, hba] at h1
          have h1x : lexLeChars as bs = true := by
            simpa [lexLeChars, hab, hba] using h1
          by_cases hbc : b.toNat < c.toNat
          · have hac : a.toNat < c.toNat := by omega
            simp [lexLeChars, hac]
          · have hcb : ¬ c.toNat < b.toNat := by
              intro hcb
              simp [lexLeChars, hbc, hcb] at h2
            have h2x : lexLeChars bs cs = true := by
              simpa [lexLeChars, hbc, hcb] using h2
            have hac1 : ¬ a.toNat < c.toNat := by omega
            have hac2 : ¬ c.toNat < a.toNat := by omega
            simp [lexLeChars, hac1, hac2, ih h1x h2x]

theorem lexLeChars_antisymm {as bs : List Char} (h1 : lexLeChars as bs = true)
    (h2 : lexLeChars bs as = true) : as = bs := by
  induction as generalizing bs with
  | nil =>
    cases bs with
    | nil => rfl
    | cons b bs => simp [lexLeChars] at h2
  | cons a as ih =>
    cases bs with
    | nil => simp [lexLeChars] at h1
    | cons b bs =>
      by_cases hab : a.toNat < b.toNat
      · exfalso
        have hba : ¬ b.toNat < a.toNat := by omega
        simp [lexLeChars, hab, hba] at h2
      · by_cases hba : b.toNat < a.toNat
        · exfalso
          simp [lexLeChars, hab, hba] at h1
        · have hv : a = b := charToNatInj (by omega)
          have h1x : lexLeChars as bs = true := by
            simpa [lexLeChars, hab, hba] using h1
          have h2x : lexLeChars bs as = true := by
            simpa [lexLeChars, hab, hba] using h2
          rw [hv, ih h1x h2x]

instance : IsTotal String strLe := ⟨fun a b => lexLeChars_total a.data b.data⟩

instance : IsTrans String strLe := ⟨fun _ _ _ h1 h2 => lexLeChars_trans h1 h2⟩

instance : IsRefl String strLe := ⟨fun a => lexLeChars_refl a.data⟩

theorem stringMkData (s : String) : String.mk s.data = s := by cases s; rfl

instance : IsAntisymm String strLe :=
  ⟨fun a b h1 h2 => by
    have := lexLeChars_antisymm h1 h2
    rw [← stringMkData a, ← stringMkData b, this]⟩

/-! ### External dictionaries (modelled) -/

/-- Modelled from the spec: the fixed English stopword set the scripts load
from NLTK (`stopwords.words('english')`), an external dictionary not part of
the repository; modelled as a representative finite list. -/
def nltkStopWords : List String :=
  ["i", "me", "my", "we", "our", "you", "he", "she", "it", "they", "them",
   "the", "a", "an", "and", "or", "but", "if", "then", "is", "are", "was",
   "were", "be", "been", "of", "at", "by", "for", "with", "to", "from",
   "in", "on", "this", "that", "these", "those", "not", "no", "do", "does"]

def tableGet : List (String × String) → String → Option String
  | [], _ => none
  | (k, v) :: t, w => if w = k then some v else tableGet t w

/-- Modelled from the spec: the fixed external lemmatization function the
scripts obtain from NLTK (`WordNetLemmatizer().lemmatize`), not part of the
repository; modelled as a finite lemma table, with tokens absent from the
table returned unchanged. -/
def wordnetLemmatize (w : String) : String :=
  (tableGet [("boulders", "boulder"), ("rocks", "rock"),
    ("erratics", "erratic"), ("glaciers", "glacier"),
    ("stones", "stone")] w).getD w

/-- Modelled from the spec: sklearn's built-in English stop word list used by
`TfidfVectorizer(stop_words='english')` (the spec's "standard English stopword
filter"), external to the repository; representative finite subset. -/
def sklearnStopWords : List String :=
  ["a", "an", "and", "are", "as", "at", "be", "but", "by", "for", "if",
   "in", "into", "is", "it", "no", "not", "of", "on", "or", "such", "that",
   "the", "their", "then", "there", "these", "they", "this", "to", "was",
   "will", "with"]

/-! ### Text normalization (`preprocess_text` in both scripts) -/

/-- The token list produced by `preprocess_text` before joining: lowercase,
strip characters outside `\w` and whitespace, split on whitespace, drop
stopwords, lemmatize each survivor (in exactly that order, as in the source:
`[lemmatizer.lemmatize(word) for word in words if word not in stop_words]`). -/
def outputWords (lem : String → String) (stop : List String) (t : String) : List String :=
  ((pySplit (stripNonWordChars (pyLower t))).filter fun w => w ∉ stop).map lem

/-- Embedding of `preprocess_text` from both scripts.  `none` models a pandas
null description (`pd.isnull`). -/
def preprocess_text (lem : String → String) (stop : List String)
    (text : Option String) : String :=
  match text with
  | none => ""
  | some t => pyJoin (outputWords lem stop t)

/-- C8: normalization is total and never fails: on a missing (null) input it
returns the empty string, and on the empty string it returns the empty
string; the embedded function is total, so no error is possible. -/
theorem preprocess_text_total (lem : String → String) (stop : List String) :
    preprocess_text lem stop none = "" ∧ preprocess_text lem stop (some "") = "" :=
  ⟨rfl, rfl⟩

/-! ### Idempotence machinery for the normalizer -/

theorem not_ws_of_wordChar {c : Char} (h : isWordChar c = true) : c.isWhitespace = false := by
  by_contra hne
  have hws : c.isWhitespace = true := by
    cases hb : c.isWhitespace
    · exact absurd hb hne
    · rfl
  have hc : ((c = ' ' ∨ c = '\t') ∨ c = '\r') ∨ c = '\n' := by
    simpa [Char.isWhitespace] using hws
  rcases hc with ((h1 | h1) | h1) | h1 <;> subst h1 <;> exact absurd h (by decide)

theorem splitTokAux_nonsep (sep : Char → Bool) (w : List Char)
    (hw : ∀ c ∈ w, sep c = false) (cs acc : List Char) :
    splitTokAux sep (w ++ cs) acc = splitTokAux sep cs (w.reverse ++ acc) := by
  induction w generalizing acc with
  | nil => simp
  | cons c w ih =>
    have hc : sep c = false := hw c (by simp)
    simp only [List.cons_append, splitTokAux, hc, Bool.false_eq_true, if_false]
    show splitTokAux sep (w ++ cs) (c :: acc) = splitTokAux sep cs ((c :: w).reverse ++ acc)
    rw [ih (fun d hd => hw d (by simp [hd])) (c :: acc)]
    simp

theorem splitTokAux_join (sep : Char → Bool) (hsp : sep ' ' = true) :
    ∀ ws : List (List Char), (∀ w ∈ ws, w ≠ [] ∧ ∀ c ∈ w, sep c = false) →
    splitTokAux sep (pyJoinAux ws) [] = ws.map String.mk := by
  intro ws
  induction ws with
  | nil => intro _; rfl
  | cons w ws ih =>
    intro h
    have hw := h w (by simp)
    cases ws with
    | nil =>
      show splitTokAux sep (pyJoinAux [w]) [] = [String.mk w]
      have : pyJoinAux [w] = w := rfl
      rw [this, show w = w ++ ([] : List Char) by simp,
        splitTokAux_nonsep sep w hw.2 [] []]
      have hne : (w.reverse ++ ([] : List Char)).isEmpty = false := by
        rcases w with _ | ⟨c, w⟩
        · exact absurd rfl hw.1
        · simp [List.isEmpty_iff]
      simp only [splitTokAux, hne, Bool.false_eq_true, if_false]
      simp
    | cons w2 ws2 =>
      show splitTokAux sep (w ++ ' ' :: pyJoinAux (w2 :: ws2)) [] =
        String.mk w :: (w2 :: ws2).map String.mk
      rw [splitTokAux_nonsep sep w hw.2 _ []]
      have hne : (w.reverse ++ ([] : List Char)).isEmpty = false := by
        rcases w with _ | ⟨c, w⟩
        · exact absurd rfl hw.1
        · simp [List.isEmpty_iff]
      simp only [splitTokAux, hsp, if_true, hne, Bool.false_eq_true, if_false]
      rw [ih (fun u hu => h u (by simp [hu]))]
      simp

theorem pyJoinAux_map (f : Char → Char) (hf : f ' ' = ' ') :
    ∀ ws : List (List Char), (∀ w ∈ ws, w.map f = w) →
    (pyJoinAux ws).map f = pyJoinAux ws := by
  intro ws
  induction ws with
  | nil => intro _; rfl
  | cons w ws ih =>
    intro h
    cases ws with
    | nil => exact h w (by simp)
    | cons w2 ws2 =>
      show (w ++ ' ' :: pyJoinAux (w2 :: ws2)).map f = w ++ ' ' :: pyJoinAux (w2 :: ws2)
      rw [List.map_append, h w (by simp), List.map_cons, hf,
        ih (fun u hu => h u (by simp [hu]))]

theorem pyJoinAux_filter (p : Char → Bool) (hp : p ' ' = true) :
    ∀ ws : List (List Char), (∀ w ∈ ws, w.filter p = w) →
    (pyJoinAux ws).filter p = pyJoinAux ws := by
  intro ws
  induction ws with
  | nil => intro _; rfl
  | cons w ws ih =>
    intro h
    cases ws with
    | nil => exact h w (by simp)
    | cons w2 ws2 =>
      show (w ++ ' ' :: pyJoinAux (w2 :: ws2)).filter p = w ++ ' ' :: pyJoinAux (w2 :: ws2)
      rw [List.filter_append, h w (by simp), List.filter_cons_of_pos hp,
        ih (fun u hu => h u (by simp [hu]))]

theorem mem_pyJoinAux {c : Char} :
    ∀ {ws : List (List Char)}, c ∈ pyJoinAux ws → (∃ w ∈ ws, c ∈ w) ∨ c = ' ' := by
  intro ws
  induction ws with
  | nil => intro h; exact absurd h (by simp [pyJoinAux])
  | cons w ws ih =>
    intro h
    cases ws with
    | nil => exact Or.inl ⟨w, by simp, h⟩
    | cons w2 ws2 =>
      rcases List.mem_append.mp h with h1 | h1
      · exact Or.inl ⟨w, by simp, h1⟩
      · rcases List.mem_cons.mp h1 with h2 | h2
        · exact Or.inr h2
        · rcases ih h2 with ⟨u, hu, hcu⟩ | h3
          · exact Or.inl ⟨u, by simp [hu], hcu⟩
          · exact Or.inr h3

theorem outputWords_pyJoin (lem : String → String) (stop : List String) (ws : List String)
    (h : ∀ w ∈ ws, w.data ≠ [] ∧ w ∉ stop ∧ lem w = w ∧
      ∀ c ∈ w.data, isWordChar c = true ∧ c.toLower = c) :
    outputWords lem stop (pyJoin ws) = ws := by
  have hlower : pyLower (pyJoin ws) = pyJoin ws := by
    show String.mk ((pyJoinAux (ws.map String.data)).map Char.toLower) =
      String.mk (pyJoinAux (ws.map String.data))
    rw [pyJoinAux_map Char.toLower (by decide) (ws.map String.data) (by
      intro u hu
      rcases List.mem_map.mp hu with ⟨w, hw, rfl⟩
      have hcs := (h w hw).2.2.2
      calc w.data.map Char.toLower
          = w.data.map id := List.map_congr_left (fun c hc => (hcs c hc).2)
        _ = w.data := List.map_id w.data)]
  have hstrip : stripNonWordChars (pyJoin ws) = pyJoin ws := by
    show String.mk ((pyJoinAux (ws.map String.data)).filter _) =
      String.mk (pyJoinAux (ws.map String.data))
    rw [pyJoinAux_filter _ (by decide) (ws.map String.data) (by
      intro u hu
      rcases List.mem_map.mp hu with ⟨w, hw, rfl⟩
      have hcs := (h w hw).2.2.2
      rw [List.filter_eq_self]
      intro c hc
      simp [(hcs c hc).1])]
  have hsplit : pySplit (pyJoin ws) = ws := by
    show splitTokAux Char.isWhitespace (pyJoinAux (ws.map String.data)) [] = ws
    rw [splitTokAux_join Char.isWhitespace (by decide) (ws.map String.data) (by
      intro u hu
      rcases List.mem_map.mp hu with ⟨w, hw, rfl⟩
      refine ⟨(h w hw).1, fun c hc => not_ws_of_wordChar ((h w hw).2.2.2 c hc).1⟩)]
    rw [List.map_map]
    calc ws.map (String.mk ∘ String.data)
        = ws.map id := List.map_congr_left (fun w _ => stringMkData w)
      _ = ws := List.map_id ws
  unfold outputWords
  rw [hlower, hstrip, hsplit]
  rw [List.filter_eq_self.mpr (fun w hw => decide_eq_true (h w hw).2.1)]
  calc ws.map lem
      = ws.map id := List.map_congr_left (fun w hw => (h w hw).2.2.1)
    _ = ws := List.map_id ws

/-- C6: normalization is idempotent: `normalize(normalize(x)) = normalize(x)`.
Proved for every lemmatizer and stopword set under which the tokens the first
pass produces are fixed points of the token pipeline (each output token is
nonempty, made of lowercase word characters, not a stopword, and fixed by the
lemmatizer) — this is the only behaviour of the external NLTK dictionaries
under which the scripts' own transformations can be idempotent, and the
transformations themselves introduce no further failure of idempotence. -/
theorem preprocess_text_idempotent (lem : String → String) (stop : List String) (x : String)
    (h : ∀ w ∈ outputWords lem stop x, w.data ≠ [] ∧ w ∉ stop ∧ lem w = w ∧
      ∀ c ∈ w.data, isWordChar c = true ∧ c.toLower = c) :
    preprocess_text lem stop (some (preprocess_text lem stop (some x))) =
      preprocess_text lem stop (some x) := by
  show pyJoin (outputWords lem stop (pyJoin (outputWords lem stop x))) =
    pyJoin (outputWords lem stop x)
  rw [outputWords_pyJoin lem stop _ h]

/-- Witness for C6 at a concrete input, with the modelled NLTK dictionaries. -/
theorem preprocess_text_idempotent_witness :
    preprocess_text wordnetLemmatize nltkStopWords
        (some (preprocess_text wordnetLemmatize nltkStopWords
          (some "Glacial erratics, huge boulders!"))) =
      preprocess_text wordnetLemmatize nltkStopWords
        (some "Glacial erratics, huge boulders!") :=
  preprocess_text_idempotent wordnetLemmatize nltkStopWords
    "Glacial erratics, huge boulders!" (by decide)

theorem pySplit_pyJoin (ws : List String)
    (h : ∀ w ∈ ws, w.data ≠ [] ∧ ∀ c ∈ w.data, c.isWhitespace = false) :
    pySplit (pyJoin ws) = ws := by
  show splitTokAux Char.isWhitespace (pyJoinAux (ws.map String.data)) [] = ws
  rw [splitTokAux_join Char.isWhitespace (by decide) (ws.map String.data) (by
    intro u hu
    rcases List.mem_map.mp hu with ⟨w, hw, rfl⟩
    exact ⟨(h w hw).1, (h w hw).2⟩)]
  rw [List.map_map]
  calc ws.map (String.mk ∘ String.data)
      = ws.map id := List.map_congr_left (fun w _ => stringMkData w)
    _ = ws := List.map_id ws

/-- C7 amended: for every input, the normalized output is exactly the
single-space join of its token list: every character of it is a space or a
lowercase word character (alphanumeric OR UNDERSCORE — Python's `\w` class
keeps underscores), every token is nonempty, made of lowercase word
characters and free of whitespace (so consecutive tokens are separated by
exactly one space, with no leading, trailing or doubled spaces), and
splitting the output on whitespace recovers exactly the token list, which
has stopwords removed and every remaining token lemmatized — provided the
external lemmatizer maps such tokens to nonempty strings of lowercase word
characters. -/
theorem preprocess_text_chars (lem : String → String) (stop : List String) (x : String)
    (h : ∀ w ∈ outputWords lem stop x, w.data ≠ [] ∧ ∀ c ∈ w.data,
      isWordChar c = true ∧ c.toLower = c) :
    (((preprocess_text lem stop (some x)).data.all
        fun c => c == ' ' || (isWordChar c && c.toLower == c)) = true) ∧
    preprocess_text lem stop (some x) = pyJoin (outputWords lem stop x) ∧
    pySplit (preprocess_text lem stop (some x)) = outputWords lem stop x ∧
    ∀ w ∈ outputWords lem stop x, w.data ≠ [] ∧ ∀ c ∈ w.data,
      isWordChar c = true ∧ c.toLower = c ∧ c.isWhitespace = false := by
  refine ⟨?_, rfl, ?_, ?_⟩
  · rw [List.all_eq_true]
    intro c hc
    have hc2 : c ∈ pyJoinAux ((outputWords lem stop x).map String.data) := hc
    rcases mem_pyJoinAux hc2 with ⟨u, hu, hcu⟩ | hsp
    · rcases List.mem_map.mp hu with ⟨w, hw, rfl⟩
      have hcw := (h w hw).2 c hcu
      simp [hcw.1, hcw.2]
    · simp [hsp]
  · exact pySplit_pyJoin (outputWords lem stop x) (fun w hw =>
      ⟨(h w hw).1, fun c hc => not_ws_of_wordChar ((h w hw).2 c hc).1⟩)
  · intro w hw
    exact ⟨(h w hw).1, fun c hc =>
      ⟨((h w hw).2 c hc).1, ((h w hw).2 c hc).2,
        not_ws_of_wordChar ((h w hw).2 c hc).1⟩⟩

/-- Counterexample to C7 as stated: normalizing `"a_b"` yields the single
token `"a_b"`, which contains the underscore character, and an underscore is
not alphanumeric — the output is not made of alphanumeric tokens only. -/
theorem preprocess_text_underscore_counterexample :
    preprocess_text wordnetLemmatize nltkStopWords (some "a_b") = "a_b" ∧
    ('_' ∈ "a_b".data ∧ ('_').isAlphanum = false) := by
  constructor
  · rfl
  · constructor
    · decide
    · decide

/-- Witness for the amended C7 theorem at a concrete input. -/
theorem preprocess_text_chars_witness :
    ((preprocess_text wordnetLemmatize nltkStopWords
        (some "Rocks and stones near the glaciers")).data.all
      fun c => c == ' ' || (isWordChar c && c.toLower == c)) = true :=
  (preprocess_text_chars wordnetLemmatize nltkStopWords
    "Rocks and stones near the glaciers" (by decide)).1

/-! ### TF-IDF cluster labelling (`get_top_tfidf_terms` in both scripts)

The vectorizer is `TfidfVectorizer(stop_words='english')` with defaults:
tokens are maximal word-character runs of length at least 2 in the
lowercased document, sklearn stopwords are removed, the vocabulary is the
sorted set of surviving tokens, scores are raw counts times smoothed idf,
rows are L2-normalised (rows of norm zero are left untouched), and the
per-term score is the mean of the matrix column (`tfidf_matrix.mean(axis=0)`).
`np.argsort` (numpy default quicksort, an introsort) is modelled as a stable
sort of the indices; this is exact for score arrays of fewer than 16
elements, where numpy's introsort is a plain insertion sort and therefore
stable, and theorems about tie order carry that bound — for larger arrays
numpy leaves the relative order of equal keys unspecified. -/

def sklearnTokenize (doc : String) : List String :=
  (splitTok (fun c => !isWordChar c) (pyLower doc)).filter fun w => 2 ≤ w.data.length

def tfidfDocs (texts : List String) : List (List String) :=
  texts.map fun t => (sklearnTokenize t).filter fun w => w ∉ sklearnStopWords

def tfidfVocab (texts : List String) : List String :=
  List.insertionSort strLe (tfidfDocs texts).flatten.dedup

def termCount (t : String) (doc : List String) : ℕ :=
  (doc.filter fun w => w = t).length

def docFreq (t : String) (docs : List (List String)) : ℕ :=
  (docs.filter fun d => t ∈ d).length

def idfQ (logQ : ℚ → ℚ) (ndocs dft : ℕ) : ℚ :=
  qAdd (logQ (qDiv (qAdd 1 ((ndocs : ℕ) : ℚ)) (qAdd 1 ((dft : ℕ) : ℚ)))) 1

def rawScore (logQ : ℚ → ℚ) (docs : List (List String)) (d : List String) (t : String) : ℚ :=
  qMul (((termCount t d : ℕ)) : ℚ) (idfQ logQ docs.length (docFreq t docs))

def rowNormSq (logQ : ℚ → ℚ) (docs : List (List String)) (vocab : List String)
    (d : List String) : ℚ :=
  qSum (vocab.map fun t => qMul (rawScore logQ docs d t) (rawScore logQ docs d t))

def tfidfEntry (logQ sqrtQ : ℚ → ℚ) (docs : List (List String)) (vocab : List String)
    (d : List String) (t : String) : ℚ :=
  if sqrtQ (rowNormSq logQ docs vocab d) = 0 then rawScore logQ docs d t
  else qDiv (rawScore logQ docs d t) (sqrtQ (rowNormSq logQ docs vocab d))

def avgScore (logQ sqrtQ : ℚ → ℚ) (docs : List (List String)) (vocab : List String)
    (t : String) : ℚ :=
  qDiv (qSum (docs.map fun d => tfidfEntry logQ sqrtQ docs vocab d t))
    (((docs.length : ℕ)) : ℚ)

abbrev argsortRel (scores : List ℚ) (i j : ℕ) : Prop :=
  scores.getD i 0 < scores.getD j 0 ∨ (scores.getD i 0 = scores.getD j 0 ∧ i ≤ j)

def get_top_tfidf_terms (logQ sqrtQ : ℚ → ℚ) (texts : List String) (n : ℕ) :
    Except String (List String) :=
  if (tfidfVocab texts).isEmpty then Except.error "empty vocabulary"
  else
    Except.ok ((((List.insertionSort
      (argsortRel ((tfidfVocab texts).map
        (avgScore logQ sqrtQ (tfidfDocs texts) (tfidfVocab texts))))
      (List.range (tfidfVocab texts).length)).reverse).take n).map
        fun i => (tfidfVocab texts).getD i "")

/-- Concrete stand-in for the external floating-point `np.log` when
instantiating theorems: the constant-zero function (so that each idf is 1). -/
def qZero : ℚ → ℚ := fun _ => 0

/-- Concrete stand-in for the external floating-point `np.sqrt` when
instantiating theorems: the constant-one function. -/
def qOne : ℚ → ℚ := fun _ => 1

/-- The order in which the source's selection actually returns terms, under
the stable model of `np.argsort`: descending average score, ties broken by
DESCENDING lexicographic order of the term. -/
abbrev descTermRel (score : String → ℚ) (a b : String) : Prop :=
  score b < score a ∨ (score a = score b ∧ strLe b a)

/-- Formalisation of the claim's words for the top-term selection (to be
compared with `get_top_tfidf_terms`): sort terms by descending average score
with ties broken by ASCENDING lexicographic order of the term, take `n`. -/
def specTopTerms (logQ sqrtQ : ℚ → ℚ) (texts : List String) (n : ℕ) :
    Except String (List String) :=
  if (tfidfVocab texts).isEmpty then Except.error "empty vocabulary"
  else
    Except.ok ((List.insertionSort
      (fun a b =>
        avgScore logQ sqrtQ (tfidfDocs texts) (tfidfVocab texts) b <
          avgScore logQ sqrtQ (tfidfDocs texts) (tfidfVocab texts) a ∨
        (avgScore logQ sqrtQ (tfidfDocs texts) (tfidfVocab texts) a =
          avgScore logQ sqrtQ (tfidfDocs texts) (tfidfVocab texts) b ∧ strLe a b))
      (tfidfVocab texts)).take n)

/-- Counterexample to C3 as stated: on the single document `"apple banana"`
the two terms have equal average TF-IDF score, the code returns them in
DESCENDING lexicographic order `["banana", "apple"]`, while the claim's
ascending tie-break would return `["apple", "banana"]`. -/
theorem get_top_tie_counterexample :
    get_top_tfidf_terms qZero qOne ["apple banana"] 10 =
      Except.ok ["banana", "apple"] ∧
    specTopTerms qZero qOne ["apple banana"] 10 =
      Except.ok ["apple", "banana"] := by
  constructor
  · rfl
  · rfl

/-! ### The cluster-analysis loop of both scripts -/

def clusterTexts (rows : List (Int × String)) (c : Int) : List String :=
  (rows.filter fun p => p.1 = c).map Prod.snd

/-- The iteration order of the HDBSCAN script's loop:
`sorted(df['cluster'].unique())`. -/
def sortedUniqueIds (labels : List Int) : List Int :=
  List.insertionSort (· ≤ ·) labels.dedup

/-- The iteration order of the DBSCAN script's loop: `df['cluster'].unique()`,
i.e. distinct labels in order of first appearance. -/
def uniqueFirstAppearance (labels : List Int) : List Int :=
  labels.foldl (fun acc x => if x ∈ acc then acc else acc ++ [x]) []

/-- The loop body shared by both scripts, iterated over a given id order: for
each cluster id, gather the members' cleaned texts and compute the top
TF-IDF terms; the HDBSCAN script additionally skips ids with zero member
texts (`if len(cluster_texts) == 0: continue`).  An uncaught sklearn error
aborts the whole loop. -/
def analyzeGo (logQ sqrtQ : ℚ → ℚ) (rows : List (Int × String)) :
    List Int → Except String (List (Int × List String))
  | [] => Except.ok []
  | c :: cs =>
    if (clusterTexts rows c).isEmpty then analyzeGo logQ sqrtQ rows cs
    else
      match get_top_tfidf_terms logQ sqrtQ (clusterTexts rows c) 10 with
      | Except.error e => Except.error e
      | Except.ok ts =>
        match analyzeGo logQ sqrtQ rows cs with
        | Except.error e => Except.error e
        | Except.ok m => Except.ok ((c, ts) :: m)

/-- The cluster-analysis loop of src/arcgis/clustering-test-2.py: ids sorted
ascending, zero-member ids skipped. -/
def analyzeClustersV2 (logQ sqrtQ : ℚ → ℚ) (rows : List (Int × String)) :
    Except String (List (Int × List String)) :=
  analyzeGo logQ sqrtQ rows (sortedUniqueIds (rows.map Prod.fst))

def analyzeGo1 (logQ sqrtQ : ℚ → ℚ) (rows : List (Int × String)) :
    List Int → Except String (List (Int × List String))
  | [] => Except.ok []
  | c :: cs =>
    match get_top_tfidf_terms logQ sqrtQ (clusterTexts rows c) 10 with
    | Except.error e => Except.error e
    | Except.ok ts =>
      match analyzeGo1 logQ sqrtQ rows cs with
      | Except.error e => Except.error e
      | Except.ok m => Except.ok ((c, ts) :: m)

/-- The cluster-analysis loop of src/arcgis/clustering-test.py: ids in order
of first appearance, no guard at all. -/
def analyzeClustersV1 (logQ sqrtQ : ℚ → ℚ) (rows : List (Int × String)) :
    Except String (List (Int × List String)) :=
  analyzeGo1 logQ sqrtQ rows (uniqueFirstAppearance (rows.map Prod.fst))

/-- One console line per analyzed cluster: the cluster id together with its
comma-joined top terms (`', '.join(top_terms)`), in loop order. -/
def reportLines (m : List (Int × List String)) : List (Int × String) :=
  m.map fun p => (p.1, String.intercalate ", " p.2)

/-- C1: evaluation of the code at the failing input.  A cluster (id 0) with
two members whose cleaned texts are both empty does NOT get skipped (the
guard only skips clusters with zero members); instead the TF-IDF vectorizer
is called on two empty documents and raises an empty-vocabulary error, which
aborts the analysis — and hence the run, before any map is generated — for
any instantiation of the external log and sqrt functions. -/
theorem analyzeClusters_empty_texts_error (logQ sqrtQ : ℚ → ℚ) :
    analyzeClustersV2 logQ sqrtQ [(0, ""), (0, "")] =
      Except.error "empty vocabulary" := rfl

/-! ### Order properties needed to characterise the selection -/

abbrev ascTermRel (score : String → ℚ) (a b : String) : Prop := descTermRel score b a

instance descTermRelTotal (score : String → ℚ) : IsTotal String (descTermRel score) :=
  ⟨fun a b => by
    rcases lt_trichotomy (score a) (score b) with h | h | h
    · exact Or.inr (Or.inl h)
    · rcases total_of strLe a b with hs | hs
      · exact Or.inr (Or.inr ⟨h.symm, hs⟩)
      · exact Or.inl (Or.inr ⟨h, hs⟩)
    · exact Or.inl (Or.inl h)⟩

instance descTermRelTrans (score : String → ℚ) : IsTrans String (descTermRel score) :=
  ⟨fun a b c hab hbc => by
    rcases hab with h1 | ⟨h1, hs1⟩
    · rcases hbc with h2 | ⟨h2, hs2⟩
      · exact Or.inl (lt_trans h2 h1)
      · exact Or.inl (by rw [← h2]; exact h1)
    · rcases hbc with h2 | ⟨h2, hs2⟩
      · exact Or.inl (by rw [h1]; exact h2)
      · exact Or.inr ⟨h1.trans h2, IsTrans.trans c b a hs2 hs1⟩⟩

instance descTermRelAntisymm (score : String → ℚ) : IsAntisymm String (descTermRel score) :=
  ⟨fun a b hab hba => by
    rcases hab with h1 | ⟨h1, hs1⟩
    · rcases hba with h2 | ⟨h2, hs2⟩
      · exact absurd (lt_trans h1 h2) (lt_irrefl _)
      · exact absurd h1 (by rw [h2]; exact lt_irrefl _)
    · rcases hba with h2 | ⟨h2, hs2⟩
      · exact absurd h2 (by rw [h1]; exact lt_irrefl _)
      · exact antisymm hs2 hs1⟩

instance ascTermRelTotal (score : String → ℚ) : IsTotal String (ascTermRel score) :=
  ⟨fun a b => total_of (descTermRel score) b a⟩

instance ascTermRelTrans (score : String → ℚ) : IsTrans String (ascTermRel score) :=
  ⟨fun a b c h1 h2 => IsTrans.trans c b a h2 h1⟩

instance ascTermRelAntisymm (score : String → ℚ) : IsAntisymm String (ascTermRel score) :=
  ⟨fun a b h1 h2 => antisymm h2 h1⟩

theorem argsortRelTotal (scores : List ℚ) : IsTotal ℕ (argsortRel scores) :=
  ⟨fun i j => by
    rcases lt_trichotomy (scores.getD i 0) (scores.getD j 0) with h | h | h
    · exact Or.inl (Or.inl h)
    · rcases Nat.le_total i j with hle | hle
      · exact Or.inl (Or.inr ⟨h, hle⟩)
      · exact Or.inr (Or.inr ⟨h.symm, hle⟩)
    · exact Or.inr (Or.inl h)⟩

theorem argsortRelTrans (scores : List ℚ) : IsTrans ℕ (argsortRel scores) :=
  ⟨fun i j k h1 h2 => by
    rcases h1 with h1 | ⟨h1, hle1⟩
    · rcases h2 with h2 | ⟨h2, hle2⟩
      · exact Or.inl (lt_trans h1 h2)
      · exact Or.inl (by rw [← h2]; exact h1)
    · rcases h2 with h2 | ⟨h2, hle2⟩
      · exact Or.inl (by rw [h1]; exact h2)
      · exact Or.inr ⟨h1.trans h2, le_trans hle1 hle2⟩⟩

attribute [instance] argsortRelTotal argsortRelTrans

theorem map_getD_range {α : Type} (l : List α) (d : α) :
    (List.range l.length).map (fun i => l.getD i d) = l := by
  induction l with
  | nil => rfl
  | cons a l ih =>
    rw [List.length_cons, List.range_succ_eq_map, List.map_cons, List.map_map]
    have htail : (List.range l.length).map ((fun i => (a :: l).getD i d) ∘ Nat.succ)
        = (List.range l.length).map (fun i => l.getD i d) :=
      List.map_congr_left (fun i _ => List.getD_cons_succ)
    rw [htail, ih]
    rfl

theorem getD_map_score (vocab : List String) (score : String → ℚ) {i : ℕ}
    (hi : i < vocab.length) :
    (vocab.map score).getD i 0 = score (vocab.getD i "") := by
  rw [List.getD_eq_getElem _ _ (by simpa using hi), List.getElem_map,
    List.getD_eq_getElem _ _ hi]

theorem sorted_getD_mono {vocab : List String} (hs : List.Sorted strLe vocab)
    {i j : ℕ} (hij : i ≤ j) (hj : j < vocab.length) :
    strLe (vocab.getD i "") (vocab.getD j "") := by
  rcases eq_or_lt_of_le hij with rfl | hlt
  · exact lexLeChars_refl _
  · have hi : i < vocab.length := lt_trans hlt hj
    rw [List.getD_eq_getElem _ _ hi, List.getD_eq_getElem _ _ hj]
    have h := List.Sorted.rel_get_of_lt hs
      (a := ⟨i, hi⟩) (b := ⟨j, hj⟩) (show (⟨i, hi⟩ : Fin _) < ⟨j, hj⟩ from hlt)
    simpa using h

theorem tfidfVocab_sorted (texts : List String) : List.Sorted strLe (tfidfVocab texts) :=
  List.sorted_insertionSort strLe _

/-- C3 amended: for every cluster whose vocabulary has fewer than 16 terms —
the regime in which numpy's default-quicksort `argsort` is an insertion sort
and hence provably stable, so the stable model is exact — the returned term
list is exactly the vocabulary sorted by descending average TF-IDF score
with ties broken by DESCENDING lexicographic order of the term, truncated to
`n`: the source reverses a stable ascending `argsort` over the
alphabetically sorted feature names, which reverses the order of
equal-scored terms as well.  For 16 or more scores numpy's quicksort leaves
the relative order of equal keys unspecified, so no tie order is claimed
there. -/
theorem get_top_tfidf_terms_sorted (logQ sqrtQ : ℚ → ℚ) (texts : List String) (n : ℕ)
    (ts : List String) (hlen : (tfidfVocab texts).length < 16)
    (h : get_top_tfidf_terms logQ sqrtQ texts n = Except.ok ts) :
    ts = (List.insertionSort
      (descTermRel (avgScore logQ sqrtQ (tfidfDocs texts) (tfidfVocab texts)))
      (tfidfVocab texts)).take n := by
  by_cases hv : (tfidfVocab texts).isEmpty
  · rw [get_top_tfidf_terms, if_pos hv] at h
    exact absurd h (by simp)
  · rw [get_top_tfidf_terms, if_neg hv] at h
    have hts := (Except.ok.inj h).symm
    set score := avgScore logQ sqrtQ (tfidfDocs texts) (tfidfVocab texts) with hscore
    set vocab := tfidfVocab texts with hvocab
    set scores := vocab.map score with hscores
    set idxSorted := List.insertionSort (argsortRel scores) (List.range vocab.length)
      with hidx
    have hperm : idxSorted.Perm (List.range vocab.length) :=
      List.perm_insertionSort _ _
    have hsortedIdx : List.Sorted (argsortRel scores) idxSorted :=
      List.sorted_insertionSort _ _
    have hvs : List.Sorted strLe vocab := tfidfVocab_sorted texts
    have hA : idxSorted.map (fun i => vocab.getD i "") =
        List.insertionSort (ascTermRel score) vocab := by
      apply List.eq_of_perm_of_sorted (r := ascTermRel score)
      · refine ((hperm.map _).trans ?_).trans (List.perm_insertionSort _ _).symm
        rw [map_getD_range]
      · rw [List.Sorted, List.pairwise_map]
        apply List.Pairwise.imp_of_mem ?_ hsortedIdx
        intro i j hi hj hrel
        have hi2 : i < vocab.length := by
          simpa using List.mem_range.mp (hperm.mem_iff.mp hi)
        have hj2 : j < vocab.length := by
          simpa using List.mem_range.mp (hperm.mem_iff.mp hj)
        rcases hrel with hlt | ⟨heq, hle⟩
        · left
          rw [getD_map_score vocab score hi2, getD_map_score vocab score hj2] at hlt
          exact hlt
        · right
          rw [getD_map_score vocab score hi2, getD_map_score vocab score hj2] at heq
          exact ⟨heq.symm, sorted_getD_mono hvs hle hj2⟩
      · exact List.sorted_insertionSort _ _
    have hB : (List.insertionSort (ascTermRel score) vocab).reverse =
        List.insertionSort (descTermRel score) vocab := by
      apply List.eq_of_perm_of_sorted (r := descTermRel score)
      · refine (List.reverse_perm _).trans
          ((List.perm_insertionSort _ _).trans (List.perm_insertionSort _ _).symm)
      · rw [List.Sorted, List.pairwise_reverse]
        exact List.sorted_insertionSort _ _
      · exact List.sorted_insertionSort _ _
    rw [hts, List.map_take, List.map_reverse, hA, hB]

/-- Witness for the amended C3 theorem at the concrete tie input. -/
theorem get_top_tfidf_terms_sorted_witness :
    (["banana", "apple"] : List String) =
      (List.insertionSort
        (descTermRel (avgScore qZero qOne (tfidfDocs ["apple banana"])
          (tfidfVocab ["apple banana"])))
        (tfidfVocab ["apple banana"])).take 10 :=
  get_top_tfidf_terms_sorted qZero qOne ["apple banana"] 10 ["banana", "apple"]
    (by decide) (by rfl)

theorem analyzeGo_keys_sublist (logQ sqrtQ : ℚ → ℚ) (rows : List (Int × String)) :
    ∀ (ids : List Int) (m : List (Int × List String)),
      analyzeGo logQ sqrtQ rows ids = Except.ok m → (m.map Prod.fst).Sublist ids := by
  intro ids
  induction ids with
  | nil =>
    intro m h
    have : ([] : List (Int × List String)) = m := Except.ok.inj h
    rw [← this]
    simp
  | cons c cs ih =>
    intro m h
    rw [analyzeGo] at h
    by_cases hemp : (clusterTexts rows c).isEmpty
    · rw [if_pos hemp] at h
      exact (ih m h).cons c
    · rw [if_neg hemp] at h
      cases htop : get_top_tfidf_terms logQ sqrtQ (clusterTexts rows c) 10 with
      | error e =>
        rw [htop] at h
        exact absurd h (by simp)
      | ok ts =>
        rw [htop] at h
        cases hrec : analyzeGo logQ sqrtQ rows cs with
        | error e =>
          rw [hrec] at h
          exact absurd h (by simp)
        | ok m2 =>
          rw [hrec] at h
          have hm : (c, ts) :: m2 = m := Except.ok.inj h
          rw [← hm]
          exact (ih m2 hrec).cons₂ c

/-- C5 amended: in the HDBSCAN script the console report prints, for each
analyzed cluster, one line with the cluster id and its comma-joined top
terms, and the lines appear in ascending cluster-id order; the DBSCAN script
instead prints them in order of first appearance of each cluster id. -/
theorem reportLines_sorted_v2 (logQ sqrtQ : ℚ → ℚ) (rows : List (Int × String))
    (m : List (Int × List String))
    (h : analyzeClustersV2 logQ sqrtQ rows = Except.ok m) :
    ((reportLines m).map Prod.fst).Sorted (· ≤ ·) := by
  have hsub : (m.map Prod.fst).Sublist (sortedUniqueIds (rows.map Prod.fst)) :=
    analyzeGo_keys_sublist logQ sqrtQ rows _ m h
  have hsorted : (sortedUniqueIds (rows.map Prod.fst)).Sorted (· ≤ ·) :=
    List.sorted_insertionSort _ _
  have hms : (m.map Prod.fst).Sorted (· ≤ ·) := List.Pairwise.sublist hsub hsorted
  have hfst : (reportLines m).map Prod.fst = m.map Prod.fst := by
    simp [reportLines, List.map_map, Function.comp]
  rw [hfst]
  exact hms

/-- Labelled member texts used in concrete runs: two clusters (ids 1 and 0)
whose first-appearance order differs from ascending id order. -/
def tieRows : List (Int × String) :=
  [(1, "apple banana"), (1, "apple banana"), (0, "granite boulder"), (0, "granite boulder")]

/-- Labelled member texts with a noise cluster: two noise records (id -1)
and a regular cluster 0. -/
def noiseRows : List (Int × String) :=
  [(-1, "apple banana"), (-1, "apple banana"),
   (0, "granite boulder"), (0, "granite boulder")]

/-- Counterexample to C5 as stated: the DBSCAN script iterates
`df['cluster'].unique()` in first-appearance order, so with labels
`[1, 1, 0, 0]` it prints the line for cluster 1 before the line for
cluster 0 — the report lines are not in ascending cluster-id order. -/
theorem reportLines_unsorted_v1_counterexample :
    (analyzeClustersV1 qZero qOne tieRows).map
        (fun m => (reportLines m).map Prod.fst) =
      Except.ok [1, 0] ∧
    ¬ (([1, 0] : List Int).Sorted (· ≤ ·)) := by
  constructor
  · rfl
  · decide

/-- Witness for the amended C5 theorem on a concrete successful run. -/
theorem reportLines_sorted_v2_witness :
    ((reportLines [((-1 : Int), ["banana", "apple"]),
        (0, ["granite", "boulder"])]).map Prod.fst).Sorted (· ≤ ·) :=
  reportLines_sorted_v2 qZero qOne noiseRows
    [((-1 : Int), ["banana", "apple"]), (0, ["granite", "boulder"])] (by rfl)

/-! ### Color assignment and the interactive map (`generate_cluster_map`) -/

def colorPalette : List String :=
  ["blue", "green", "red", "orange", "purple", "darkred", "lightblue",
   "cadetblue", "pink", "black"]

/-- The HDBSCAN script's color assignment: enumerate the sorted distinct
cluster ids — including -1, which receives gray but still occupies its
enumeration index — and give the id at index i the palette color at
`i % len(color_palette)`. -/
def assignColorsV2 (labels : List Int) : List (Int × String) :=
  (sortedUniqueIds labels).enum.map fun p =>
    (p.2, if p.2 = -1 then "gray" else colorPalette.getD (p.1 % colorPalette.length) "gray")

/-- The DBSCAN script's fixed color dictionary for cluster ids -1..6. -/
def colorsV1Table : List (Int × String) :=
  [(-1, "gray"), (0, "blue"), (1, "green"), (2, "red"), (3, "orange"),
   (4, "purple"), (5, "darkred"), (6, "lightblue")]

/-- The DBSCAN script's color lookup: `colors.get(cluster_id, 'gray')`. -/
def colorLookupV1 (c : Int) : String := (List.lookup c colorsV1Table).getD "gray"

/-- Formalisation of the claim's words for color assignment, to be compared
with the code's mappings: -1 goes to the fixed neutral gray, and the other
ids, sorted ascending, are mapped in that order onto the palette, cycling
with wrap-around modulo. -/
def specAssignColors (labels : List Int) : List (Int × String) :=
  (if (-1 : Int) ∈ labels then [((-1 : Int), "gray")] else []) ++
    ((sortedUniqueIds labels).filter (fun c => c ≠ -1)).enum.map
      (fun p => (p.2, colorPalette.getD (p.1 % colorPalette.length) "gray"))

/-- Counterexample to C4 as stated: with labels {-1, 0} the HDBSCAN script
gives cluster 0 the SECOND palette color "green", because -1 occupies
enumeration index 0 of the sorted id list and shifts every other id by one,
while the claim's mapping gives cluster 0 the first palette color "blue";
and the DBSCAN script maps cluster id 7 to the gray fallback — no palette
cycling at all — where the claim requires the first palette color. -/
theorem assignColors_counterexample :
    List.lookup (0 : Int) (assignColorsV2 [-1, 0]) = some "green" ∧
    List.lookup (0 : Int) (specAssignColors [-1, 0]) = some "blue" ∧
    colorLookupV1 7 = "gray" ∧
    List.lookup (7 : Int) (specAssignColors [7]) = some "blue" :=
  ⟨rfl, rfl, rfl, rfl⟩

theorem lookup_enumFrom_map (f : ℕ → Int → String) :
    ∀ (l : List Int) (k : ℕ) (c : Int), c ∈ l →
      List.lookup c ((List.enumFrom k l).map fun p => (p.2, f p.1 p.2)) =
        some (f (k + l.indexOf c) c) := by
  intro l
  induction l with
  | nil =>
    intro k c hc
    exact absurd hc (by simp)
  | cons a l ih =>
    intro k c hc
    by_cases hca : c = a
    · subst hca
      simp [List.enumFrom, List.lookup, List.indexOf_cons_self]
    · have hmem : c ∈ l := by
        rcases List.mem_cons.mp hc with h1 | h1
        · exact absurd h1 hca
        · exact h1
      have hbeq : (a == c) = false := beq_eq_false_iff_ne.mpr (Ne.symm hca)
      have hbeq2 : (c == a) = false := beq_eq_false_iff_ne.mpr hca
      have hidx : (a :: l).indexOf c = l.indexOf c + 1 := by
        simp [List.indexOf_cons, hbeq]
      simp only [List.enumFrom, List.map_cons, List.lookup, hbeq2]
      have harith : k + 1 + l.indexOf c = k + (l.indexOf c + 1) := by omega
      rw [ih (k + 1) c hmem, hidx, harith]

/-- C4 amended: the HDBSCAN script maps -1 to gray whenever present
(regardless of iteration order, since the id list is sorted and
deduplicated), and maps every other cluster id to the palette entry at (its
index in the full ascending sorted list of distinct labels, -1 included)
modulo the palette length — so the presence of -1 shifts all other colors by
one palette slot relative to the claim's mapping; the DBSCAN script instead
uses a fixed table for ids -1..6 with a gray fallback and never cycles. -/
theorem assignColorsV2_lookup (labels : List Int) (c : Int) (hc : c ∈ labels) :
    List.lookup c (assignColorsV2 labels) =
      some (if c = -1 then "gray"
        else colorPalette.getD ((sortedUniqueIds labels).indexOf c % colorPalette.length)
          "gray") := by
  have hmem : c ∈ sortedUniqueIds labels := by
    unfold sortedUniqueIds
    rw [(List.perm_insertionSort _ _).mem_iff]
    exact List.mem_dedup.mpr hc
  have h := lookup_enumFrom_map
    (fun i c => if c = -1 then "gray" else colorPalette.getD (i % colorPalette.length) "gray")
    (sortedUniqueIds labels) 0 c hmem
  simpa [assignColorsV2, List.enum] using h

/-- Witness for the amended C4 theorem at concrete labels. -/
theorem assignColorsV2_lookup_witness :
    List.lookup (0 : Int) (assignColorsV2 [-1, 0]) =
      some (if (0 : Int) = -1 then "gray"
        else colorPalette.getD ((sortedUniqueIds [-1, 0]).indexOf 0 % colorPalette.length)
          "gray") :=
  assignColorsV2_lookup [-1, 0] 0 (by decide)

structure RowRec where
  description : Option String
  latitude : Option ℚ
  longitude : Option ℚ
  cluster : Int
deriving DecidableEq

structure MarkerRec where
  location : ℚ × ℚ
  radius : ℕ
  color : String
  fillColor : String
  popupCluster : Int
  popupTerms : List String
  popupDescription : Option String
deriving DecidableEq

structure FoliumMapRec where
  location : ℚ × ℚ
  zoomStart : ℕ
  markers : List MarkerRec
deriving DecidableEq

/-- Mean of a pandas numeric column (`df[col].mean()`): missing values are
skipped, matching the default `skipna=True`, and the mean of a column with
no present value is NaN, modelled as `none`. -/
def pdMeanOpt (xs : List (Option ℚ)) : Option ℚ :=
  if (xs.filterMap id).isEmpty then none
  else some (qDiv (qSum (xs.filterMap id)) (((xs.filterMap id).length : ℕ) : ℚ))

/-- Creation of one `folium.CircleMarker`: folium's `validate_location`
raises a ValueError when a coordinate is NaN or missing, so marker creation
is fallible; on valid coordinates the marker carries radius 5, the cluster
color (gray fallback), and a popup with the cluster id, the cluster's top
terms (empty list if no summary), and the raw description. -/
def circleMarker (cmap : List (Int × String)) (terms : List (Int × List String))
    (r : RowRec) : Except String MarkerRec :=
  match r.latitude, r.longitude with
  | some la, some lo =>
      Except.ok
        { location := (la, lo),
          radius := 5,
          color := (List.lookup r.cluster cmap).getD "gray",
          fillColor := (List.lookup r.cluster cmap).getD "gray",
          popupCluster := r.cluster,
          popupTerms := (List.lookup r.cluster terms).getD [],
          popupDescription := r.description }
  | _, _ => Except.error "Location values cannot contain NaNs"

/-- The marker loop of `generate_cluster_map`: markers are added in input
record order, and the first folium location error aborts the run. -/
def buildMarkers (cmap : List (Int × String)) (terms : List (Int × List String)) :
    List RowRec → Except String (List MarkerRec)
  | [] => Except.ok []
  | r :: rs =>
    match circleMarker cmap terms r with
    | Except.error e => Except.error e
    | Except.ok mk =>
      match buildMarkers cmap terms rs with
      | Except.error e => Except.error e
      | Except.ok mks => Except.ok (mk :: mks)

/-- Embedding of `generate_cluster_map` from the HDBSCAN script: create the
base map centered on the mean latitude and mean longitude (folium validates
the center, raising on NaN — which pandas produces when a coordinate column
has no present value), build the cluster color map, then add one
`CircleMarker` per record in input order; the renderer is fallible because
folium validates every location. -/
def generateClusterMapV2 (rows : List RowRec) (terms : List (Int × List String)) :
    Except String FoliumMapRec :=
  match pdMeanOpt (rows.map RowRec.latitude), pdMeanOpt (rows.map RowRec.longitude) with
  | some mlat, some mlon =>
      match buildMarkers (assignColorsV2 (rows.map RowRec.cluster)) terms rows with
      | Except.error e => Except.error e
      | Except.ok mks =>
          Except.ok { location := (mlat, mlon), zoomStart := 5, markers := mks }
  | _, _ => Except.error "Location values cannot contain NaNs"

theorem filterMap_id_map_some (l : List ℚ) : (l.map some).filterMap id = l := by
  induction l with
  | nil => rfl
  | cons a l ih => simp [ih]

theorem pdMeanOpt_allSome (l : List ℚ) (hne : l ≠ []) :
    pdMeanOpt (l.map some) = some (l.sum / ((l.length : ℕ) : ℚ)) := by
  unfold pdMeanOpt
  rw [filterMap_id_map_some]
  rw [if_neg (by simp [List.isEmpty_iff, hne])]
  rw [qSum_eq, qDiv_eq]

theorem circleMarker_ok {cmap : List (Int × String)} {terms : List (Int × List String)}
    {r : RowRec} {mk : MarkerRec} (h : circleMarker cmap terms r = Except.ok mk) :
    mk.popupCluster = r.cluster ∧ mk.popupTerms = (List.lookup r.cluster terms).getD [] := by
  unfold circleMarker at h
  cases hla : r.latitude with
  | none =>
    cases hlo : r.longitude with
    | none =>
      rw [hla, hlo] at h
      exact absurd h (by simp)
    | some lo =>
      rw [hla, hlo] at h
      exact absurd h (by simp)
  | some la =>
    cases hlo : r.longitude with
    | none =>
      rw [hla, hlo] at h
      exact absurd h (by simp)
    | some lo =>
      rw [hla, hlo] at h
      rw [← Except.ok.inj h]
      exact ⟨rfl, rfl⟩

theorem buildMarkers_mem (cmap : List (Int × String)) (terms : List (Int × List String)) :
    ∀ (rows : List RowRec) (mks : List MarkerRec),
      buildMarkers cmap terms rows = Except.ok mks →
      ∀ mk ∈ mks, ∃ r ∈ rows, circleMarker cmap terms r = Except.ok mk := by
  intro rows
  induction rows with
  | nil =>
    intro mks h mk hmk
    rw [← Except.ok.inj h] at hmk
    exact absurd hmk (by simp)
  | cons r rs ih =>
    intro mks h mk hmk
    rw [buildMarkers] at h
    cases hc : circleMarker cmap terms r with
    | error e =>
      rw [hc] at h
      exact absurd h (by simp)
    | ok mk1 =>
      rw [hc] at h
      cases hb : buildMarkers cmap terms rs with
      | error e =>
        rw [hb] at h
        exact absurd h (by simp)
      | ok mks2 =>
        rw [hb] at h
        rw [← Except.ok.inj h] at hmk
        rcases List.mem_cons.mp hmk with h1 | h1
        · exact ⟨r, by simp, by rw [h1]; exact hc⟩
        · rcases ih mks2 hb mk h1 with ⟨r2, hr2, hcr2⟩
          exact ⟨r2, by simp [hr2], hcr2⟩

theorem buildMarkers_ok_iff (cmap : List (Int × String)) (terms : List (Int × List String)) :
    ∀ rows : List RowRec,
      (buildMarkers cmap terms rows).isOk =
        rows.all (fun r => r.latitude.isSome && r.longitude.isSome) := by
  intro rows
  induction rows with
  | nil => rfl
  | cons r rs ih =>
    rw [buildMarkers, List.all_cons]
    cases hla : r.latitude with
    | none =>
      have hcm : circleMarker cmap terms r = Except.error "Location values cannot contain NaNs" := by
        unfold circleMarker
        rw [hla]
      rw [hcm]
      simp [hla, Except.isOk, Except.toBool]
    | some la =>
      cases hlo : r.longitude with
      | none =>
        have hcm : circleMarker cmap terms r = Except.error "Location values cannot contain NaNs" := by
          unfold circleMarker
          rw [hla, hlo]
        rw [hcm]
        simp [hla, hlo, Except.isOk, Except.toBool]
      | some lo =>
        have hcm : ∃ mk, circleMarker cmap terms r = Except.ok mk := by
          unfold circleMarker
          rw [hla, hlo]
          exact ⟨_, rfl⟩
        rcases hcm with ⟨mk, hcm⟩
        rw [hcm]
        cases hb : buildMarkers cmap terms rs with
        | error e =>
          have ih2 : false = rs.all (fun r => r.latitude.isSome && r.longitude.isSome) := by
            rw [hb] at ih
            exact ih
          simp [hla, hlo, Except.isOk, Except.toBool, ← ih2]
        | ok mks =>
          have ih2 : true = rs.all (fun r => r.latitude.isSome && r.longitude.isSome) := by
            rw [hb] at ih
            exact ih
          simp [hla, hlo, Except.isOk, Except.toBool, ← ih2]

theorem isOkExists {α : Type} {e : Except String α} (h : e.isOk = true) :
    ∃ a, e = Except.ok a := by
  cases e with
  | error e2 => exact absurd h (by simp [Except.isOk, Except.toBool])
  | ok a => exact ⟨a, rfl⟩

/-- The renderer succeeds exactly on a non-empty record list all of whose
coordinates are present: an empty frame gives NaN column means (folium
rejects the center), and any missing marker coordinate makes folium reject
that marker. -/
theorem generateClusterMapV2_isOk (rows : List RowRec) (terms : List (Int × List String)) :
    (generateClusterMapV2 rows terms).isOk =
      (!rows.isEmpty && rows.all fun r => r.latitude.isSome && r.longitude.isSome) := by
  cases rows with
  | nil => rfl
  | cons r rs =>
    by_cases hall : ((r :: rs).all fun r => r.latitude.isSome && r.longitude.isSome) = true
    · have hr := List.all_eq_true.mp hall r (by simp)
      rcases hla : r.latitude with _ | la
      · rw [hla] at hr
        simp at hr
      rcases hlo : r.longitude with _ | lo
      · rw [hla, hlo] at hr
        simp at hr
      have hm1 : ∃ q, pdMeanOpt ((r :: rs).map RowRec.latitude) = some q := by
        unfold pdMeanOpt
        rw [if_neg (by simp [hla])]
        exact ⟨_, rfl⟩
      have hm2 : ∃ q, pdMeanOpt ((r :: rs).map RowRec.longitude) = some q := by
        unfold pdMeanOpt
        rw [if_neg (by simp [hlo])]
        exact ⟨_, rfl⟩
      rcases hm1 with ⟨q1, hq1⟩
      rcases hm2 with ⟨q2, hq2⟩
      have hbm : (buildMarkers (assignColorsV2 ((r :: rs).map RowRec.cluster)) terms
          (r :: rs)).isOk = true := by
        rw [buildMarkers_ok_iff]
        exact hall
      rcases isOkExists hbm with ⟨mks, hmks⟩
      unfold generateClusterMapV2
      rw [hq1, hq2, hmks, hall]
      rfl
    · have hall2 : ((r :: rs).all fun r => r.latitude.isSome && r.longitude.isSome) = false :=
        Bool.not_eq_true _ ▸ eq_false_of_ne_true hall
      cases hq1 : pdMeanOpt ((r :: rs).map RowRec.latitude) with
      | none =>
        unfold generateClusterMapV2
        rw [hq1, hall2]
        cases pdMeanOpt ((r :: rs).map RowRec.longitude) <;> rfl
      | some q1 =>
        cases hq2 : pdMeanOpt ((r :: rs).map RowRec.longitude) with
        | none =>
          unfold generateClusterMapV2
          rw [hq1, hq2, hall2]
          rfl
        | some q2 =>
          have hbm : (buildMarkers (assignColorsV2 ((r :: rs).map RowRec.cluster)) terms
              (r :: rs)).isOk = false := by
            rw [buildMarkers_ok_iff, hall2]
          cases hb : buildMarkers (assignColorsV2 ((r :: rs).map RowRec.cluster)) terms
              (r :: rs) with
          | error e =>
            unfold generateClusterMapV2
            rw [hq1, hq2, hb, hall2]
            rfl
          | ok mks =>
            rw [hb] at hbm
            simp [Except.isOk, Except.toBool] at hbm

/-- C9: for every non-empty record sequence (all coordinates present), the
map is rendered and its initial viewport center is the arithmetic mean of
all record latitudes and the arithmetic mean of all record longitudes,
computed independently. -/
theorem generateClusterMap_center (rows : List RowRec) (terms : List (Int × List String))
    (lats lons : List ℚ) (hne : rows ≠ [])
    (hlat : rows.map RowRec.latitude = lats.map some)
    (hlon : rows.map RowRec.longitude = lons.map some) :
    (generateClusterMapV2 rows terms).map FoliumMapRec.location =
      Except.ok (lats.sum / ((lats.length : ℕ) : ℚ), lons.sum / ((lons.length : ℕ) : ℚ)) := by
  have hlats : lats ≠ [] := by
    intro h0
    rw [h0] at hlat
    simp only [List.map_nil, List.map_eq_nil_iff] at hlat
    exact hne hlat
  have hlons : lons ≠ [] := by
    intro h0
    rw [h0] at hlon
    simp only [List.map_nil, List.map_eq_nil_iff] at hlon
    exact hne hlon
  have hall : (rows.all fun r => r.latitude.isSome && r.longitude.isSome) = true := by
    rw [List.all_eq_true]
    intro r hr
    have h1 : r.latitude ∈ lats.map some := by
      rw [← hlat]
      exact List.mem_map_of_mem RowRec.latitude hr
    have h2 : r.longitude ∈ lons.map some := by
      rw [← hlon]
      exact List.mem_map_of_mem RowRec.longitude hr
    rcases List.mem_map.mp h1 with ⟨la, _, hla⟩
    rcases List.mem_map.mp h2 with ⟨lo, _, hlo⟩
    simp [← hla, ← hlo]
  have hbm : (buildMarkers (assignColorsV2 (rows.map RowRec.cluster)) terms rows).isOk
      = true := by
    rw [buildMarkers_ok_iff]
    exact hall
  rcases isOkExists hbm with ⟨mks, hmks⟩
  unfold generateClusterMapV2
  rw [hlat, hlon, pdMeanOpt_allSome lats hlats, pdMeanOpt_allSome lons hlons, hmks]
  rfl

/-- Two records at (10, 20) and (30, 40), as in the spec's render scenario. -/
def renderRows : List RowRec :=
  [{ description := some "erratic one", latitude := some 10, longitude := some 20,
     cluster := 0 },
   { description := some "erratic two", latitude := some 30, longitude := some 40,
     cluster := 0 }]

/-- Witness for C9: two records at (10, 20) and (30, 40) yield the computed
map center (20, 30). -/
theorem generateClusterMap_center_witness :
    (generateClusterMapV2 renderRows []).map FoliumMapRec.location =
      Except.ok ((20 : ℚ), (30 : ℚ)) := by
  have h := generateClusterMap_center renderRows [] [10, 30] [20, 40]
    (by decide) rfl rfl
  rw [h]
  norm_num

theorem analyzeGo_lookup (logQ sqrtQ : ℚ → ℚ) (rows : List (Int × String)) :
    ∀ (ids : List Int) (m : List (Int × List String)) (c : Int), c ∈ ids →
      ¬ (clusterTexts rows c).isEmpty = true →
      analyzeGo logQ sqrtQ rows ids = Except.ok m →
      List.lookup c m =
        (get_top_tfidf_terms logQ sqrtQ (clusterTexts rows c) 10).toOption := by
  intro ids
  induction ids with
  | nil =>
    intro m c hc
    exact absurd hc (by simp)
  | cons a cs ih =>
    intro m c hc hne h
    rw [analyzeGo] at h
    by_cases hca : c = a
    · subst hca
      rw [if_neg hne] at h
      cases htop : get_top_tfidf_terms logQ sqrtQ (clusterTexts rows c) 10 with
      | error e =>
        rw [htop] at h
        exact absurd h (by simp)
      | ok ts =>
        rw [htop] at h
        cases hrec : analyzeGo logQ sqrtQ rows cs with
        | error e =>
          rw [hrec] at h
          exact absurd h (by simp)
        | ok m2 =>
          rw [hrec] at h
          have hm : (c, ts) :: m2 = m := Except.ok.inj h
          rw [← hm]
          simp [List.lookup, Except.toOption]
    · have hmem : c ∈ cs := by
        rcases List.mem_cons.mp hc with h1 | h1
        · exact absurd h1 hca
        · exact h1
      by_cases hae : (clusterTexts rows a).isEmpty
      · rw [if_pos hae] at h
        exact ih m c hmem hne h
      · rw [if_neg hae] at h
        cases htop : get_top_tfidf_terms logQ sqrtQ (clusterTexts rows a) 10 with
        | error e =>
          rw [htop] at h
          exact absurd h (by simp)
        | ok ts =>
          rw [htop] at h
          cases hrec : analyzeGo logQ sqrtQ rows cs with
          | error e =>
            rw [hrec] at h
            exact absurd h (by simp)
          | ok m2 =>
            rw [hrec] at h
            have hm : (a, ts) :: m2 = m := Except.ok.inj h
            have hbeq2 : (c == a) = false := beq_eq_false_iff_ne.mpr hca
            rw [← hm]
            simp only [List.lookup, hbeq2]
            exact ih m2 c hmem hne hrec

/-- C10: whenever some record is labeled -1 (noise), the HDBSCAN script's
analysis loop computes the TF-IDF summary for cluster -1 over the noise
records' texts unconditionally, exactly as for a regular cluster, consulting
no caller request or opt-in: on any successful run the summary mapping
contains the noise summary (so its line is printed in the report), and in
any successfully rendered map every marker whose popup cluster id is -1
carries exactly those terms. -/
theorem noise_summary_unconditional (logQ sqrtQ : ℚ → ℚ) (rows : List (Int × String))
    (m : List (Int × List String))
    (h : analyzeClustersV2 logQ sqrtQ rows = Except.ok m)
    (hn : (-1 : Int) ∈ rows.map Prod.fst) :
    List.lookup (-1 : Int) m =
      (get_top_tfidf_terms logQ sqrtQ (clusterTexts rows (-1)) 10).toOption ∧
    (∀ (rrows : List RowRec) (art : FoliumMapRec),
      generateClusterMapV2 rrows m = Except.ok art →
      ∀ mk ∈ art.markers, mk.popupCluster = -1 →
      mk.popupTerms =
        ((get_top_tfidf_terms logQ sqrtQ (clusterTexts rows (-1)) 10).toOption).getD []) := by
  have hne : ¬ (clusterTexts rows (-1)).isEmpty = true := by
    rcases List.mem_map.mp hn with ⟨p, hp, hp1⟩
    have hmem : p.2 ∈ clusterTexts rows (-1) := by
      unfold clusterTexts
      exact List.mem_map_of_mem Prod.snd (List.mem_filter.mpr ⟨hp, by simp [hp1]⟩)
    intro hisE
    rw [List.isEmpty_iff] at hisE
    rw [hisE] at hmem
    exact absurd hmem (by simp)
  have hmemId : (-1 : Int) ∈ sortedUniqueIds (rows.map Prod.fst) := by
    unfold sortedUniqueIds
    rw [(List.perm_insertionSort _ _).mem_iff]
    exact List.mem_dedup.mpr hn
  have hlk := analyzeGo_lookup logQ sqrtQ rows (sortedUniqueIds (rows.map Prod.fst)) m
    (-1) hmemId hne h
  refine ⟨hlk, ?_⟩
  intro rrows art hart mk hmk hmkc
  unfold generateClusterMapV2 at hart
  cases hq1 : pdMeanOpt (rrows.map RowRec.latitude) with
  | none =>
    cases hq2 : pdMeanOpt (rrows.map RowRec.longitude) with
    | none =>
      rw [hq1, hq2] at hart
      exact absurd hart (by simp)
    | some q2 =>
      rw [hq1, hq2] at hart
      exact absurd hart (by simp)
  | some q1 =>
    cases hq2 : pdMeanOpt (rrows.map RowRec.longitude) with
    | none =>
      rw [hq1, hq2] at hart
      exact absurd hart (by simp)
    | some q2 =>
      rw [hq1, hq2] at hart
      cases hb : buildMarkers (assignColorsV2 (rrows.map RowRec.cluster)) m rrows with
      | error e =>
        rw [hb] at hart
        exact absurd hart (by simp)
      | ok mks =>
        rw [hb] at hart
        have hart2 := Except.ok.inj hart
        have hmk2 : mk ∈ mks := by
          rw [← hart2] at hmk
          exact hmk
        rcases buildMarkers_mem (assignColorsV2 (rrows.map RowRec.cluster)) m rrows mks hb
          mk hmk2 with ⟨r, _hr, hcm⟩
        rcases circleMarker_ok hcm with ⟨hpc, hpt⟩
        have hrc : r.cluster = -1 := by
          rw [← hpc]
          exact hmkc
        rw [hpt, hrc, hlk]

/-- Witness for C10 on a concrete run with a noise cluster. -/
theorem noise_summary_unconditional_witness :
    List.lookup (-1 : Int)
        [((-1 : Int), ["banana", "apple"]), (0, ["granite", "boulder"])] =
      (get_top_tfidf_terms qZero qOne (clusterTexts noiseRows (-1)) 10).toOption :=
  (noise_summary_unconditional qZero qOne noiseRows
    [((-1 : Int), ["banana", "apple"]), (0, ["granite", "boulder"])]
    (by rfl) (by decide)).1

/-! ### The module-level pipeline of the HDBSCAN script
(load → clean → embed → cluster → analyze → render) -/

structure InputRecord where
  rid : String
  description : Option String
  latitude : Option ℚ
  longitude : Option ℚ
deriving DecidableEq

structure PipelineResult where
  cleaned : List String
  embeddings : List (List ℚ)
  labels : List Int
  summaries : List (Int × List String)
  artifact : FoliumMapRec
deriving DecidableEq

/-- The cleaned-description column (`df['description'].apply(preprocess_text)`). -/
def cleanedTexts (lem : String → String) (stop : List String)
    (records : List InputRecord) : List String :=
  records.map fun r => preprocess_text lem stop r.description

/-- The rows handed to the renderer: each input record together with its
cluster label. -/
def zipRows (lem : String → String) (stop : List String)
    (embed : List String → List (List ℚ)) (cluster : List (List ℚ) → List Int)
    (records : List InputRecord) : List RowRec :=
  (records.zip (cluster (embed (cleanedTexts lem stop records)))).map fun p =>
    { description := p.1.description, latitude := p.1.latitude,
      longitude := p.1.longitude, cluster := p.2 }

/-- Embedding of the HDBSCAN script's module-level pipeline.  The external
embedding model (`SentenceTransformer.encode`) and clustering algorithm
(`hdbscan.HDBSCAN(...).fit_predict`) are parameters.  The pipeline cleans
the descriptions, embeds the cleaned texts, clusters the embeddings,
analyzes the clusters with TF-IDF and finally renders the map.  No step
inspects latitude or longitude before the rendering stage, and no step
validates coordinates before that; the only coordinate-sensitive point is
folium's location validation inside `generate_cluster_map`. -/
def runPipeline (lem : String → String) (stop : List String) (logQ sqrtQ : ℚ → ℚ)
    (embed : List String → List (List ℚ)) (cluster : List (List ℚ) → List Int)
    (records : List InputRecord) : Except String PipelineResult :=
  match analyzeClustersV2 logQ sqrtQ
      ((cluster (embed (cleanedTexts lem stop records))).zip
        (cleanedTexts lem stop records)) with
  | Except.error e => Except.error e
  | Except.ok m =>
    match generateClusterMapV2 (zipRows lem stop embed cluster records) m with
    | Except.error e => Except.error e
    | Except.ok art =>
        Except.ok
          { cleaned := cleanedTexts lem stop records,
            embeddings := embed (cleanedTexts lem stop records),
            labels := cluster (embed (cleanedTexts lem stop records)),
            summaries := m,
            artifact := art }

/-- C2 amended: the pipeline performs no coordinate validation before
embedding — cleaning, embedding, clustering and TF-IDF labelling never
inspect coordinates, and a run fails in exactly two cases: the labelling
step raises (empty vocabulary), or folium's location validation rejects a
missing (NaN) coordinate at the final rendering stage, after all embedding
work is done.  No ValidationError exists and there is no fail-fast. -/
theorem runPipeline_isOk (lem : String → String) (stop : List String)
    (logQ sqrtQ : ℚ → ℚ) (embed : List String → List (List ℚ))
    (cluster : List (List ℚ) → List Int) (records : List InputRecord) :
    (runPipeline lem stop logQ sqrtQ embed cluster records).isOk =
      ((analyzeClustersV2 logQ sqrtQ
          ((cluster (embed (cleanedTexts lem stop records))).zip
            (cleanedTexts lem stop records))).isOk &&
        (!(zipRows lem stop embed cluster records).isEmpty &&
          (zipRows lem stop embed cluster records).all fun r =>
            r.latitude.isSome && r.longitude.isSome)) := by
  unfold runPipeline
  cases h : analyzeClustersV2 logQ sqrtQ
      ((cluster (embed (cleanedTexts lem stop records))).zip
        (cleanedTexts lem stop records)) with
  | error e => rfl
  | ok m =>
    show ((match generateClusterMapV2 (zipRows lem stop embed cluster records) m with
        | Except.error e => Except.error e
        | Except.ok art =>
            Except.ok
              { cleaned := cleanedTexts lem stop records,
                embeddings := embed (cleanedTexts lem stop records),
                labels := cluster (embed (cleanedTexts lem stop records)),
                summaries := m,
                artifact := art } : Except String PipelineResult)).isOk =
      ((Except.ok m : Except String (List (Int × List String))).isOk &&
        (!(zipRows lem stop embed cluster records).isEmpty &&
          (zipRows lem stop embed cluster records).all fun r =>
            r.latitude.isSome && r.longitude.isSome))
    rw [← generateClusterMapV2_isOk (zipRows lem stop embed cluster records) m]
    cases hg : generateClusterMapV2 (zipRows lem stop embed cluster records) m with
    | error e => rfl
    | ok art => rfl

/-- Input records one of which has a missing latitude. -/
def badRecords : List InputRecord :=
  [{ rid := "1", description := some "apple banana", latitude := none,
     longitude := some 20 },
   { rid := "2", description := some "apple banana", latitude := some 30,
     longitude := some 40 }]

/-- Counterexample to C2 as stated: `badRecords` contains a record with a
missing latitude, yet the run does NOT fail with a ValidationError before
embedding: cleaning, embedding and clustering all run, the post-embedding
TF-IDF labelling step completes successfully on the clustered texts, and
the run fails only afterwards, at the map-rendering stage, with folium's
location error for the NaN coordinate. -/
theorem runPipeline_no_validation_counterexample :
    (∃ r ∈ badRecords, r.latitude = none) ∧
    analyzeClustersV2 qZero qOne [((0 : Int), "apple banana"), (0, "apple banana")] =
      Except.ok [(0, ["banana", "apple"])] ∧
    runPipeline wordnetLemmatize nltkStopWords qZero qOne
        (fun ts => ts.map fun _ => [0])
        (fun vs => vs.map fun _ => 0) badRecords =
      Except.error "Location values cannot contain NaNs" := by
  refine ⟨by decide, by rfl, by rfl⟩
